import Mathlib

/-!
Verification of the domain-scout pipeline (src/src/index.ts), shallowly
embedded over `List Char` strings with JavaScript string semantics for the
operations the program uses (`trim`, `toLowerCase`, `split(/[\r\n]+/)`,
`includes`, truthiness of strings).
-/

namespace DomainScout

/-- Strings are modelled as lists of characters. -/
abbrev Str := List Char

/-- Whitespace recognised by JS `String.prototype.trim` (ASCII subset:
space, tab, LF, VT, FF, CR). -/
def isWS (c : Char) : Bool :=
  c.toNat = 32 || c.toNat = 9 || c.toNat = 10 || c.toNat = 11 ||
  c.toNat = 12 || c.toNat = 13

/-- A character matched by the separator class `[\r\n]` of the split regex. -/
def isSep (c : Char) : Bool :=
  c.toNat = 13 || c.toNat = 10

/-- JS `trim`: drop leading and trailing whitespace. -/
def trim (s : Str) : Str :=
  (s.dropWhile isWS).rdropWhile isWS

/-- JS `toLowerCase` on the ASCII range (the program only feeds it
ASCII domain labels); `Char.toLower` maps `A`–`Z` down by 32. -/
def toLowerStr (s : Str) : Str :=
  s.map Char.toLower

/-- JS `text.split(/[\r\n]+/)`: split on maximal runs of CR/LF.
`splitSep "" = [""]`, boundary runs yield empty segments, interior runs
yield exactly one boundary. -/
def splitSep : Str → List Str
  | [] => [[]]
  | c :: rest =>
    if isSep c then
      match rest with
      | [] => [] :: splitSep []
      | c2 :: rest2 =>
        if isSep c2 then splitSep (c2 :: rest2)
        else [] :: splitSep (c2 :: rest2)
    else
      match splitSep rest with
      | [] => [[c]]
      | s :: ss => (c :: s) :: ss

/-- JS `Array.prototype.shift` on the split result: the removed first
element (the header, `undefined` when absent) and the remaining list. -/
def shiftHeader (lines : List Str) : Option Str × List Str :=
  match lines with
  | [] => (none, [])
  | h :: t => (some h, t)

/-- The `-m, --max <chars>` option: `none` when the flag is absent
(JS `undefined`, for which `length > undefined` is always false). -/
def lenExceeds (n : Nat) : Option Nat → Bool
  | none => false
  | some m => n > m

/-- `validateTld(tld, maxLength)` from src/src/index.ts lines 46-52:
reject empty strings (JS falsiness of `""`), then trimmed length over the
bound, then any string containing a hyphen. -/
def validateTld (tld : Str) (maxLength : Option Nat) : Bool :=
  if tld.isEmpty then false
  else if lenExceeds (trim tld).length maxLength then false
  else if tld.contains '-' then false
  else true

/-- The `Domain` value object (src/src/index.ts lines 32-44). -/
structure Domain where
  sld : Str
  tld : Str
deriving DecidableEq

/-- The `Domain` constructor: `this.sld = sld.trim().toLowerCase()` and
likewise for `tld`. -/
def Domain.make (sld tld : Str) : Domain :=
  ⟨toLowerStr (trim sld), toLowerStr (trim tld)⟩

/-- `Domain.full()`:
`(this.sld.toLowerCase() + "." + this.tld.toLowerCase()).trim()`. -/
def Domain.full (d : Domain) : Str :=
  trim (toLowerStr d.sld ++ '.' :: toLowerStr d.tld)

/-- A DNS environment for `dnsPromises.lookup`: `some addr` when the
forward lookup of a name resolves to an address, `none` when it fails for
any reason (NXDOMAIN, timeout, network error, malformed name). -/
abbrev Dns := Str → Option Str

/-- `isDomainAvailable` (src/src/index.ts lines 23-30): `await lookup`
succeeding yields `false`, the `catch` of any failure yields `true`. -/
def isDomainAvailable (dns : Dns) (d : Domain) : Bool :=
  (dns d.full).isNone

/-- The colour/prefix category a printed line carries. -/
inductive Marker where
  | available
  | unavailable
  | unknown
deriving DecidableEq

/-- The body of the `print` loop for one valid TLD (src/src/index.ts lines
113-141): with `test` set, the availability continuation prints a green
line when available, a red line unless `ignoreUnavailable`; without
`test`, it prints the yellow "unknown" line immediately. -/
def printEmitOne (test ignoreUnavailable : Bool) (dns : Dns) (d : Domain) :
    Option (Marker × Str) :=
  if test then
    if isDomainAvailable dns d then some (Marker.available, d.full)
    else if ignoreUnavailable then none
    else some (Marker.unavailable, d.full)
  else some (Marker.unknown, d.full)

/-- The `print` loop over the post-header TLD list (src/src/index.ts lines
110-142): skip TLDs failing validation, build the domain, emit. Checked
emissions really arrive in DNS-completion order; the list here records
them in fan-out (source) order, which is the real order whenever `test` is
false and in every case determines exactly which lines appear. -/
def printEmissions (test ignoreUnavailable : Bool) (maxLength : Option Nat)
    (dns : Dns) (sld : Str) (tlds : List Str) : List (Marker × Str) :=
  tlds.filterMap fun tld =>
    if validateTld tld maxLength then
      printEmitOne test ignoreUnavailable dns (Domain.make sld tld)
    else none

/-- The `print` action on raw TLD text (src/src/index.ts lines 70-144):
`test = options.test || ignoreUnavailable`, split, shift the header,
then run the loop. Returns the header (printed when it is a string) and
the emitted lines. -/
def printAction (optTest ignoreUnavailable : Bool) (maxLength : Option Nat)
    (dns : Dns) (sld : Str) (raw : Str) : Option Str × List (Marker × Str) :=
  let (header, tlds) := shiftHeader (splitSep raw)
  (header, printEmissions (optTest || ignoreUnavailable) ignoreUnavailable
    maxLength dns sld tlds)

/-- The body of the `file` loop for one valid TLD (src/src/index.ts lines
196-204): with `ignoreUnavailable`, append only when the check reports
available; otherwise append unconditionally. -/
def fileEmitOne (ignoreUnavailable : Bool) (dns : Dns) (d : Domain) :
    Option Str :=
  if ignoreUnavailable then
    if isDomainAvailable dns d then some d.full else none
  else some d.full

/-- The `file` loop over the post-header TLD list (src/src/index.ts lines
190-206): the texts passed to `newLineAppendToFile`, in fan-out order. -/
def fileAppends (ignoreUnavailable : Bool) (maxLength : Option Nat)
    (dns : Dns) (sld : Str) (tlds : List Str) : List Str :=
  tlds.filterMap fun tld =>
    if validateTld tld maxLength then
      fileEmitOne ignoreUnavailable dns (Domain.make sld tld)
    else none

/-- The `file` action on raw TLD text (src/src/index.ts lines 153-207). -/
def fileAction (ignoreUnavailable : Bool) (maxLength : Option Nat)
    (dns : Dns) (sld : Str) (raw : Str) : Option Str × List Str :=
  let (header, tlds) := shiftHeader (splitSep raw)
  (header, fileAppends ignoreUnavailable maxLength dns sld tlds)

/-- `newLineAppendToFile` (src/src/index.ts lines 54-56): one independent
append write of `text + "\n"` onto the current file contents. -/
def newLineAppend (fileContent text : Str) : Str :=
  fileContent ++ text ++ ['\n']

/-- The file contents after all appends of a run, starting empty. -/
def fileContents (appends : List Str) : Str :=
  appends.foldl newLineAppend []

/-- What the remote source produces: node-fetch rejects its promise only
on network failure; an HTTP response of any status (404 included)
resolves, and `res.text()` yields its body. -/
inductive FetchResult where
  | networkError
  | response (status : Nat) (body : Str)

/-- `fetchText` (src/src/index.ts lines 18-21): `nodefetch(url).then(res
=> res.text())` — no status check, so any response's body is returned;
only a network-level rejection propagates as an error. -/
def fetchText : FetchResult → Except Unit Str
  | FetchResult.networkError => Except.error ()
  | FetchResult.response _ body => Except.ok body

/-- The `print` action from the remote source: `rawTldsPromise.then(...)`
has no rejection handler, so a loading error propagates and no candidate
is processed; a resolved body (any HTTP status) is fed to the pipeline. -/
def runPrint (optTest ignoreUnavailable : Bool) (maxLength : Option Nat)
    (dns : Dns) (sld : Str) (src : FetchResult) :
    Except Unit (Option Str × List (Marker × Str)) :=
  (fetchText src).map (printAction optTest ignoreUnavailable maxLength dns sld)

theorem toNat_ofNatAux (n : Nat) (h : n.isValidChar) :
    (Char.ofNatAux n h).toNat = n := rfl

theorem toNat_ofNat_of_valid (n : Nat) (h : n.isValidChar) :
    (Char.ofNat n).toNat = n := by
  simp only [Char.ofNat, h, dite_true]
  exact toNat_ofNatAux n h

theorem isValidChar_of_le (n : Nat) (h : n ≤ 255) : n.isValidChar :=
  Or.inl (by omega)

theorem toNat_toLower (c : Char) :
    (Char.toLower c).toNat =
      if 65 ≤ c.toNat ∧ c.toNat ≤ 90 then c.toNat + 32 else c.toNat := by
  simp only [Char.toLower, ge_iff_le]
  by_cases h : 65 ≤ c.toNat ∧ c.toNat ≤ 90
  · simp only [h, and_true, if_true, h.1, if_pos h]
    exact toNat_ofNat_of_valid _ (isValidChar_of_le _ (by omega))
  · simp [h]

theorem toLower_eq_self (c : Char) (h : ¬(65 ≤ c.toNat ∧ c.toNat ≤ 90)) :
    Char.toLower c = c := by
  simp only [Char.toLower, ge_iff_le]
  simp [h]

theorem toLower_idem (c : Char) :
    Char.toLower (Char.toLower c) = Char.toLower c := by
  apply toLower_eq_self
  rw [toNat_toLower]
  by_cases h : 65 ≤ c.toNat ∧ c.toNat ≤ 90
  · rw [if_pos h]
    omega
  · rw [if_neg h]
    exact h

theorem isWS_toLower (c : Char) : isWS (Char.toLower c) = isWS c := by
  simp only [isWS, toNat_toLower]
  split
  · next h =>
    trans false
    · simp only [Bool.or_eq_false_iff, decide_eq_false_iff_not]
      omega
    · symm
      simp only [Bool.or_eq_false_iff, decide_eq_false_iff_not]
      omega
  · rfl

theorem isSep_toLower (c : Char) : isSep (Char.toLower c) = isSep c := by
  simp only [isSep, toNat_toLower]
  split
  · next h =>
    trans false
    · simp only [Bool.or_eq_false_iff, decide_eq_false_iff_not]
      omega
    · symm
      simp only [Bool.or_eq_false_iff, decide_eq_false_iff_not]
      omega
  · rfl

theorem head?_dropWhile (p : α → Bool) (l : List α) (c : α)
    (h : (l.dropWhile p).head? = some c) : p c = false := by
  have hh := List.head?_dropWhile_not p l
  rw [h] at hh
  exact hh

theorem dropWhile_eq_self_of_head? (p : α → Bool) (l : List α)
    (h : ∀ c, l.head? = some c → p c = false) : l.dropWhile p = l := by
  cases l with
  | nil => rfl
  | cons c rest =>
    rw [List.dropWhile_cons, h c rfl]
    simp

theorem rdropWhile_eq_self_of_head? (p : α → Bool) (l : List α)
    (h : ∀ c, l.reverse.head? = some c → p c = false) : l.rdropWhile p = l := by
  rw [List.rdropWhile, dropWhile_eq_self_of_head? p l.reverse h,
    List.reverse_reverse]

theorem head?_of_isPrefix {l m : List α} (h : l <+: m) (c : α)
    (hc : l.head? = some c) : m.head? = some c := by
  obtain ⟨t, rfl⟩ := h
  cases l with
  | nil => simp at hc
  | cons d rest =>
    simp only [List.head?_cons, Option.some.injEq] at hc
    simp [hc]

/-- The first character of a trimmed string is never whitespace. -/
theorem head?_trim (s : Str) (c : Char) (h : (trim s).head? = some c) :
    isWS c = false := by
  unfold trim at h
  exact head?_dropWhile isWS s c
    (head?_of_isPrefix (List.rdropWhile_prefix isWS (s.dropWhile isWS)) c h)

/-- The last character of a trimmed string is never whitespace. -/
theorem revhead?_trim (s : Str) (c : Char) (h : (trim s).reverse.head? = some c) :
    isWS c = false := by
  unfold trim at h
  rw [List.rdropWhile, List.reverse_reverse] at h
  exact head?_dropWhile isWS (s.dropWhile isWS).reverse c h

theorem toLowerStr_idem (l : Str) : toLowerStr (toLowerStr l) = toLowerStr l := by
  simp only [toLowerStr, List.map_map]
  exact List.map_congr_left fun c _ => toLower_idem c

/-- The first character of `toLowerStr (trim s)` is never whitespace. -/
theorem head?_lower_trim (s : Str) (c : Char)
    (h : (toLowerStr (trim s)).head? = some c) : isWS c = false := by
  unfold toLowerStr at h
  rw [List.head?_map] at h
  cases hh : (trim s).head? with
  | none => rw [hh] at h; simp at h
  | some c0 =>
    rw [hh] at h
    simp only [Option.map_some', Option.some.injEq] at h
    rw [← h, isWS_toLower]
    exact head?_trim s c0 hh

/-- The last character of `toLowerStr (trim s)` is never whitespace. -/
theorem revhead?_lower_trim (s : Str) (c : Char)
    (h : (toLowerStr (trim s)).reverse.head? = some c) : isWS c = false := by
  unfold toLowerStr at h
  rw [← List.map_reverse, List.head?_map] at h
  cases hh : (trim s).reverse.head? with
  | none => rw [hh] at h; simp at h
  | some c0 =>
    rw [hh] at h
    simp only [Option.map_some', Option.some.injEq] at h
    rw [← h, isWS_toLower]
    exact revhead?_trim s c0 hh

theorem head?_append_dot (x y : Str)
    (hx : ∀ c, x.head? = some c → isWS c = false) :
    ∀ c, (x ++ '.' :: y).head? = some c → isWS c = false := by
  cases x with
  | nil =>
    intro c h
    simp only [List.nil_append, List.head?_cons, Option.some.injEq] at h
    rw [← h]
    decide
  | cons d rest =>
    intro c h
    simp only [List.cons_append, List.head?_cons, Option.some.injEq] at h
    exact h ▸ hx d rfl

theorem trim_append_dot (a b : Str)
    (ha : ∀ c, a.head? = some c → isWS c = false)
    (hb : ∀ c, b.reverse.head? = some c → isWS c = false) :
    trim (a ++ '.' :: b) = a ++ '.' :: b := by
  unfold trim
  rw [dropWhile_eq_self_of_head? isWS _ (head?_append_dot a b ha)]
  apply rdropWhile_eq_self_of_head?
  intro c h
  rw [show (a ++ '.' :: b).reverse = b.reverse ++ '.' :: a.reverse by simp] at h
  exact head?_append_dot b.reverse a.reverse hb c h

/-- The normal form of `Domain.full` after construction: the constructor
already trimmed and lower-cased both labels, so the extra `toLowerCase`
and `trim` inside `full()` are no-ops. -/
theorem full_make (s t : Str) :
    (Domain.make s t).full =
      toLowerStr (trim s) ++ '.' :: toLowerStr (trim t) := by
  show trim (toLowerStr (toLowerStr (trim s)) ++ '.' ::
    toLowerStr (toLowerStr (trim t))) = _
  rw [toLowerStr_idem, toLowerStr_idem]
  exact trim_append_dot _ _ (head?_lower_trim s) (revhead?_lower_trim t)

/-- The split result is never the empty list (JS `split` always returns at
least one element). -/
theorem splitSep_ne_nil (raw : Str) : splitSep raw ≠ [] := by
  induction raw with
  | nil => simp [splitSep]
  | cons c rest ih =>
    cases rest with
    | nil =>
      by_cases hc : isSep c = true
      · simp [splitSep, hc]
      · simp [splitSep, hc]
    | cons c2 rest2 =>
      simp only [splitSep]
      by_cases hc : isSep c = true
      · by_cases hc2 : isSep c2 = true
        · simpa [hc, hc2] using ih
        · simp [hc, hc2]
      · simp only [hc, if_false]
        cases hsplit : splitSep (c2 :: rest2) with
        | nil => simp
        | cons s ss => simp

/-- No segment produced by the split contains a CR or LF character. -/
theorem mem_splitSep_no_sep (raw : Str) :
    ∀ s ∈ splitSep raw, ∀ c ∈ s, isSep c = false := by
  induction raw with
  | nil =>
    intro s hs c hc
    simp only [splitSep, List.mem_singleton] at hs
    subst hs
    simp at hc
  | cons c0 rest ih =>
    intro s hs c hc
    by_cases h0 : isSep c0 = true
    · cases rest with
      | nil =>
        simp only [splitSep] at hs
        rw [if_pos h0] at hs
        rcases List.mem_cons.mp hs with rfl | hs2
        · simp at hc
        · rcases List.mem_singleton.mp hs2 with rfl
          simp at hc
      | cons c2 rest2 =>
        simp only [splitSep] at hs
        rw [if_pos h0] at hs
        by_cases h2 : isSep c2 = true
        · rw [if_pos h2] at hs
          exact ih s hs c hc
        · rw [if_neg h2] at hs
          rcases List.mem_cons.mp hs with rfl | hs2
          · simp at hc
          · exact ih s hs2 c hc
    · cases rest with
      | nil =>
        simp only [splitSep] at hs
        rw [if_neg h0] at hs
        rcases List.mem_singleton.mp hs with rfl
        rcases List.mem_singleton.mp hc with rfl
        simpa using h0
      | cons c2 rest2 =>
        simp only [splitSep] at hs
        rw [if_neg h0] at hs
        cases hsplit : splitSep (c2 :: rest2) with
        | nil => exact absurd hsplit (splitSep_ne_nil (c2 :: rest2))
        | cons s1 ss =>
          rw [hsplit] at hs
          rcases List.mem_cons.mp hs with rfl | hs2
          · rcases List.mem_cons.mp hc with rfl | hc2
            · simpa using h0
            · exact ih s1 (hsplit ▸ List.mem_cons_self ..) c hc2
          · exact ih s (hsplit ▸ List.mem_cons_of_mem s1 hs2) c hc

/-- Text without CR/LF is a single segment. -/
theorem splitSep_of_no_sep (raw : Str) (h : ∀ c ∈ raw, isSep c = false) :
    splitSep raw = [raw] := by
  induction raw with
  | nil => rfl
  | cons c0 rest ih =>
    have h0 : isSep c0 = false := h c0 (List.mem_cons_self ..)
    cases rest with
    | nil => simp [splitSep, h0]
    | cons c2 rest2 =>
      simp only [splitSep]
      rw [if_neg (by simp [h0])]
      rw [ih fun c hc => h c (List.mem_cons_of_mem c0 hc)]

theorem filterMap_guard {α β : Type} (p : α → Bool) (f : α → β) (l : List α) :
    (l.filterMap fun a => if p a then some (f a) else none)
      = (l.filter p).map f := by
  induction l with
  | nil => rfl
  | cons a rest ih =>
    by_cases hp : p a = true
    · simp [List.filterMap_cons, List.filter_cons, hp, ih]
    · simp [List.filterMap_cons, List.filter_cons, hp, ih]

theorem filterMap_guard2 {α β : Type} (p q : α → Bool) (f : α → β) (l : List α) :
    (l.filterMap fun a => if p a then if q a then some (f a) else none else none)
      = ((l.filter p).filter q).map f := by
  induction l with
  | nil => rfl
  | cons a rest ih =>
    by_cases hp : p a = true
    · by_cases hq : q a = true
      · simp [List.filterMap_cons, List.filter_cons, hp, hq, ih]
      · simp [List.filterMap_cons, List.filter_cons, hp, hq, ih]
    · simp [List.filterMap_cons, List.filter_cons, hp, ih]

/-- Unchecked `print` path: every valid TLD gives an unknown-marked line,
synchronously, in source order. -/
theorem printEmissions_unchecked (ignoreUnavailable : Bool)
    (maxLength : Option Nat) (dns : Dns) (sld : Str) (tlds : List Str) :
    printEmissions false ignoreUnavailable maxLength dns sld tlds
      = (tlds.filter fun t => validateTld t maxLength).map
          fun t => (Marker.unknown, (Domain.make sld t).full) :=
  filterMap_guard (fun t => validateTld t maxLength)
    (fun t => (Marker.unknown, (Domain.make sld t).full)) tlds

/-- Checked `print` path without `ignoreUnavailable`: every valid TLD
gives a line, marked by its availability outcome. -/
theorem printEmissions_checked (maxLength : Option Nat) (dns : Dns)
    (sld : Str) (tlds : List Str) :
    printEmissions true false maxLength dns sld tlds
      = (tlds.filter fun t => validateTld t maxLength).map
          fun t =>
            (if isDomainAvailable dns (Domain.make sld t) then Marker.available
             else Marker.unavailable, (Domain.make sld t).full) := by
  have step : ∀ d : Domain, printEmitOne true false dns d
      = some (if isDomainAvailable dns d then Marker.available
              else Marker.unavailable, d.full) := by
    intro d
    by_cases h : isDomainAvailable dns d = true
    · simp [printEmitOne, h]
    · simp [printEmitOne, h]
  calc printEmissions true false maxLength dns sld tlds
      = tlds.filterMap fun t =>
          if validateTld t maxLength then
            some (if isDomainAvailable dns (Domain.make sld t) then
                Marker.available else Marker.unavailable,
              (Domain.make sld t).full)
          else none := by
        unfold printEmissions
        congr 1
        funext t
        rw [step]
    _ = _ := filterMap_guard _ _ tlds

/-- Checked `print` path when every DNS lookup fails: every valid TLD is
classified available. -/
theorem printEmissions_allFail (ignoreUnavailable : Bool)
    (maxLength : Option Nat) (sld : Str) (tlds : List Str) :
    printEmissions true ignoreUnavailable maxLength (fun _ => none) sld tlds
      = (tlds.filter fun t => validateTld t maxLength).map
          fun t => (Marker.available, (Domain.make sld t).full) :=
  filterMap_guard (fun t => validateTld t maxLength)
    (fun t => (Marker.available, (Domain.make sld t).full)) tlds

/-- `file` path without `ignoreUnavailable`: every valid TLD is appended. -/
theorem fileAppends_all (maxLength : Option Nat) (dns : Dns) (sld : Str)
    (tlds : List Str) :
    fileAppends false maxLength dns sld tlds
      = (tlds.filter fun t => validateTld t maxLength).map
          fun t => (Domain.make sld t).full :=
  filterMap_guard (fun t => validateTld t maxLength)
    (fun t => (Domain.make sld t).full) tlds

/-- `file` path with `ignoreUnavailable`: exactly the valid TLDs whose
check reports available are appended. -/
theorem fileAppends_suppress (maxLength : Option Nat) (dns : Dns)
    (sld : Str) (tlds : List Str) :
    fileAppends true maxLength dns sld tlds
      = (((tlds.filter fun t => validateTld t maxLength).filter
            fun t => isDomainAvailable dns (Domain.make sld t)).map
          fun t => (Domain.make sld t).full) :=
  filterMap_guard2 (fun t => validateTld t maxLength)
    (fun t => isDomainAvailable dns (Domain.make sld t))
    (fun t => (Domain.make sld t).full) tlds

theorem foldl_newLineAppend (init : Str) (l : List Str) :
    l.foldl newLineAppend init
      = init ++ (l.map fun a => a ++ ['\n']).flatten := by
  induction l generalizing init with
  | nil => simp
  | cons a rest ih =>
    simp only [List.foldl_cons, List.map_cons, List.flatten_cons, ih,
      newLineAppend, List.append_assoc]

/-- The output file is the concatenation of the newline-terminated
appends, in write order. -/
theorem fileContents_eq (appends : List Str) :
    fileContents appends = (appends.map fun a => a ++ ['\n']).flatten :=
  foldl_newLineAppend [] appends

/-- One newline per append: the file's line count is the append count. -/
theorem count_newline_fileContents (appends : List Str)
    (h : ∀ a ∈ appends, '\n' ∉ a) :
    (fileContents appends).count '\n' = appends.length := by
  rw [fileContents_eq]
  induction appends with
  | nil => rfl
  | cons a rest ih =>
    simp only [List.map_cons, List.flatten_cons, List.count_append,
      List.length_cons]
    rw [ih fun x hx => h x (List.mem_cons_of_mem a hx)]
    rw [List.count_eq_zero.mpr (h a (List.mem_cons_self ..))]
    simp [List.count_singleton]
    omega

theorem mem_trim {c : Char} {s : Str} (h : c ∈ trim s) : c ∈ s :=
  (List.dropWhile_sublist isWS).subset
    ((List.rdropWhile_prefix isWS (s.dropWhile isWS)).sublist.subset h)

/-- Every character of a built domain's full name is the dot or the
lower-casing of a character of one of the two inputs. -/
theorem mem_full_make (sld t : Str) (c : Char)
    (hc : c ∈ (Domain.make sld t).full) :
    c = '.' ∨ (∃ c0 ∈ sld, c = Char.toLower c0) ∨
      (∃ c0 ∈ t, c = Char.toLower c0) := by
  rw [full_make] at hc
  rcases List.mem_append.mp hc with h1 | h2
  · obtain ⟨c0, hc0, rfl⟩ := List.mem_map.mp h1
    exact Or.inr (Or.inl ⟨c0, mem_trim hc0, rfl⟩)
  · rcases List.mem_cons.mp h2 with rfl | h3
    · exact Or.inl rfl
    · obtain ⟨c0, hc0, rfl⟩ := List.mem_map.mp h3
      exact Or.inr (Or.inr ⟨c0, mem_trim hc0, rfl⟩)

/-- If neither input contains CR/LF, the full domain name contains
neither. -/
theorem no_sep_full (sld t : Str) (hs : ∀ c ∈ sld, isSep c = false)
    (ht : ∀ c ∈ t, isSep c = false) :
    ∀ c ∈ (Domain.make sld t).full, isSep c = false := by
  intro c hc
  rcases mem_full_make sld t c hc with rfl | ⟨c0, hc0, rfl⟩ | ⟨c0, hc0, rfl⟩
  · decide
  · rw [isSep_toLower]
    exact hs c0 hc0
  · rw [isSep_toLower]
    exact ht c0 hc0

/-- Normal form of the `print` action: the header is the first split
line, the loop runs over the rest. -/
theorem printAction_eq (optTest ignoreUnavailable : Bool)
    (maxLength : Option Nat) (dns : Dns) (sld raw : Str) :
    printAction optTest ignoreUnavailable maxLength dns sld raw
      = ((splitSep raw).head?,
         printEmissions (optTest || ignoreUnavailable) ignoreUnavailable
           maxLength dns sld ((splitSep raw).drop 1)) := by
  unfold printAction
  cases h : splitSep raw with
  | nil => exact absurd h (splitSep_ne_nil raw)
  | cons hd tl => simp [shiftHeader]

/-- Normal form of the `file` action. -/
theorem fileAction_eq (ignoreUnavailable : Bool) (maxLength : Option Nat)
    (dns : Dns) (sld raw : Str) :
    fileAction ignoreUnavailable maxLength dns sld raw
      = ((splitSep raw).head?,
         fileAppends ignoreUnavailable maxLength dns sld
           ((splitSep raw).drop 1)) := by
  unfold fileAction
  cases h : splitSep raw with
  | nil => exact absurd h (splitSep_ne_nil raw)
  | cons hd tl => simp [shiftHeader]

/-- Any emitted `print` line shows the built domain's full name. -/
theorem printEmitOne_some (test ignoreUnavailable : Bool) (dns : Dns)
    (d : Domain) (out : Marker × Str)
    (h : printEmitOne test ignoreUnavailable dns d = some out) :
    out.2 = d.full := by
  unfold printEmitOne at h
  by_cases ht : test = true
  · rw [if_pos ht] at h
    by_cases ha : isDomainAvailable dns d = true
    · rw [if_pos ha] at h
      cases h
      rfl
    · rw [if_neg ha] at h
      by_cases hi : ignoreUnavailable = true
      · rw [if_pos hi] at h
        cases h
      · rw [if_neg hi] at h
        cases h
        rfl
  · rw [if_neg ht] at h
    cases h
    rfl

/-- Any appended `file` line is the built domain's full name. -/
theorem fileEmitOne_some (ignoreUnavailable : Bool) (dns : Dns)
    (d : Domain) (out : Str)
    (h : fileEmitOne ignoreUnavailable dns d = some out) : out = d.full := by
  unfold fileEmitOne at h
  by_cases hi : ignoreUnavailable = true
  · rw [if_pos hi] at h
    by_cases ha : isDomainAvailable dns d = true
    · rw [if_pos ha] at h
      cases h
      rfl
    · rw [if_neg ha] at h
      cases h
  · rw [if_neg hi] at h
    cases h
    rfl

/-- Checked `print` path with `ignoreUnavailable`: exactly the valid TLDs
whose check reports available are printed, all marked available. -/
theorem printEmissions_suppress (maxLength : Option Nat) (dns : Dns)
    (sld : Str) (tlds : List Str) :
    printEmissions true true maxLength dns sld tlds
      = (((tlds.filter fun t => validateTld t maxLength).filter
            fun t => isDomainAvailable dns (Domain.make sld t)).map
          fun t => (Marker.available, (Domain.make sld t).full)) :=
  filterMap_guard2 (fun t => validateTld t maxLength)
    (fun t => isDomainAvailable dns (Domain.make sld t))
    (fun t => (Marker.available, (Domain.make sld t).full)) tlds

/-- C1: the availability check classifies a candidate as Unavailable
exactly when the DNS forward lookup of `candidate.full()` succeeds
(returns an address), and as Available whenever the lookup fails for any
reason; when every lookup fails, every valid candidate comes out
Available; and a per-candidate lookup failure never aborts the run or the
other checks: with checking on, every valid candidate still yields its
own emitted outcome. -/
theorem claim1_availability_classification (dns : Dns) (d : Domain) :
    (∀ a, dns d.full = some a → isDomainAvailable dns d = false)
    ∧ (dns d.full = none → isDomainAvailable dns d = true)
    ∧ (∀ (ignoreUnavailable : Bool) (maxLength : Option Nat) (sld : Str)
         (tlds : List Str),
        printEmissions true ignoreUnavailable maxLength (fun _ => none) sld
            tlds
          = (tlds.filter fun t => validateTld t maxLength).map
              fun t => (Marker.available, (Domain.make sld t).full))
    ∧ (∀ (dns2 : Dns) (maxLength : Option Nat) (sld : Str) (tlds : List Str),
        (printEmissions true false maxLength dns2 sld tlds).length
          = (tlds.filter fun t => validateTld t maxLength).length) := by
  refine ⟨?_, ?_, ?_, ?_⟩
  · intro a h
    unfold isDomainAvailable
    rw [h]
    rfl
  · intro h
    unfold isDomainAvailable
    rw [h]
    rfl
  · intro ignoreUnavailable maxLength sld tlds
    exact printEmissions_allFail ignoreUnavailable maxLength sld tlds
  · intro dns2 maxLength sld tlds
    rw [printEmissions_checked, List.length_map]

theorem claim1_witness :
    isDomainAvailable (fun _ => some "93.184.216.34".data)
        (Domain.make "example".data "com".data) = false
    ∧ isDomainAvailable (fun _ => none)
        (Domain.make "example".data "com".data) = true :=
  ⟨(claim1_availability_classification (fun _ => some "93.184.216.34".data)
      (Domain.make "example".data "com".data)).1 "93.184.216.34".data rfl,
   (claim1_availability_classification (fun _ => none)
      (Domain.make "example".data "com".data)).2.1 rfl⟩

/-- C2: `validateTld` returns false exactly when the TLD is empty, or its
trimmed length exceeds the bound, or it contains a hyphen; with the bound
absent the length rule always passes; and on the spec's end-to-end input
with max = 3 the valid TLDs after filtering are exactly `com` and `net`. -/
theorem claim2_validateTld_rules :
    (∀ (tld : Str) (maxLength : Option Nat),
        validateTld tld maxLength
          = (!tld.isEmpty && !lenExceeds (trim tld).length maxLength &&
             !tld.contains '-'))
    ∧ (∀ tld : Str,
        validateTld tld none = (!tld.isEmpty && !tld.contains '-'))
    ∧ (((shiftHeader
          (splitSep "#header\ncom\nnet\nxn--p1ai\nco-op\n".data)).2).filter
         (validateTld · (some 3)) = ["com".data, "net".data]) := by
  have main : ∀ (tld : Str) (maxLength : Option Nat),
      validateTld tld maxLength
        = (!tld.isEmpty && !lenExceeds (trim tld).length maxLength &&
           !tld.contains '-') := by
    intro tld maxLength
    unfold validateTld
    by_cases h1 : tld.isEmpty = true
    · simp [h1]
    · by_cases h2 : lenExceeds (trim tld).length maxLength = true
      · simp [h1, h2]
      · by_cases h3 : tld.contains '-' = true
        · simp [h1, h2, h3]
        · simp [h1, h2, h3]
  refine ⟨main, ?_, by decide⟩
  intro tld
  rw [main tld none]
  simp [lenExceeds]

/-- C3: the candidate builder is total and pure; it trims and lower-cases
both inputs at construction, and the full value is the trimmed
lower-cased sld, a dot, and the trimmed lower-cased tld; in particular
`build(" Foo ", " COM ")` has `full() == "foo.com"`. -/
theorem claim3_domain_builder (sld tld : Str) :
    Domain.make sld tld = ⟨toLowerStr (trim sld), toLowerStr (trim tld)⟩
    ∧ (Domain.make sld tld).full
        = toLowerStr (trim sld) ++ '.' :: toLowerStr (trim tld)
    ∧ (Domain.make " Foo ".data " COM ".data).full = "foo.com".data :=
  ⟨rfl, full_make sld tld, by decide⟩

/-- C4: the parser splits raw text on runs of CR/LF, extracts the first
element as the header, and never fails: the split result is never empty,
the header is always defined, empty input yields an empty candidate list
with an empty header, no segment contains a CR/LF, and separator-free
text is one single segment. -/
theorem claim4_parser_total :
    (shiftHeader (splitSep []) = (some [], []))
    ∧ (∀ raw : Str, splitSep raw ≠ [])
    ∧ (∀ raw : Str, ((shiftHeader (splitSep raw)).1).isSome = true)
    ∧ (∀ raw : Str, ∀ s ∈ splitSep raw, ∀ c ∈ s, isSep c = false)
    ∧ (∀ raw : Str, (∀ c ∈ raw, isSep c = false) → splitSep raw = [raw]) := by
  refine ⟨by decide, splitSep_ne_nil, ?_, mem_splitSep_no_sep,
    splitSep_of_no_sep⟩
  intro raw
  cases h : splitSep raw with
  | nil => exact absurd h (splitSep_ne_nil raw)
  | cons hd tl => simp [shiftHeader]

theorem claim4_witness :
    ("com".data ∈ splitSep "#h\ncom".data)
    ∧ isSep 'c' = false
    ∧ splitSep "com".data = ["com".data] :=
  ⟨by decide,
   claim4_parser_total.2.2.2.1 "#h\ncom".data "com".data (by decide) 'c'
     (by decide),
   claim4_parser_total.2.2.2.2 "com".data (by decide)⟩

/-- C5: in both print and file mode the header (first split line) is
displayed but never iterated: the emitted lines are built exactly from
the post-header tail of the line list, so every emitted candidate's full
name arises from some tail TLD that passed validation — the header line
itself never becomes a candidate. -/
theorem claim5_header_never_candidate (optTest ignoreUnavailable : Bool)
    (maxLength : Option Nat) (dns : Dns) (sld raw : Str) :
    ((printAction optTest ignoreUnavailable maxLength dns sld raw).1
        = (splitSep raw).head?)
    ∧ ((printAction optTest ignoreUnavailable maxLength dns sld raw).2
        = printEmissions (optTest || ignoreUnavailable) ignoreUnavailable
            maxLength dns sld ((splitSep raw).drop 1))
    ∧ ((fileAction ignoreUnavailable maxLength dns sld raw).2
        = fileAppends ignoreUnavailable maxLength dns sld
            ((splitSep raw).drop 1))
    ∧ (∀ out ∈ (printAction optTest ignoreUnavailable maxLength dns sld
          raw).2,
        ∃ t ∈ (splitSep raw).drop 1,
          validateTld t maxLength = true
            ∧ out.2 = (Domain.make sld t).full)
    ∧ (∀ out ∈ (fileAction ignoreUnavailable maxLength dns sld raw).2,
        ∃ t ∈ (splitSep raw).drop 1,
          validateTld t maxLength = true
            ∧ out = (Domain.make sld t).full) := by
  refine ⟨?_, ?_, ?_, ?_, ?_⟩
  · rw [printAction_eq]
  · rw [printAction_eq]
  · rw [fileAction_eq]
  · intro out hout
    rw [printAction_eq] at hout
    obtain ⟨t, ht, heq⟩ := List.mem_filterMap.mp hout
    by_cases hv : validateTld t maxLength = true
    · rw [if_pos hv] at heq
      exact ⟨t, ht, hv, printEmitOne_some _ _ _ _ _ heq⟩
    · rw [if_neg hv] at heq
      cases heq
  · intro out hout
    rw [fileAction_eq] at hout
    obtain ⟨t, ht, heq⟩ := List.mem_filterMap.mp hout
    by_cases hv : validateTld t maxLength = true
    · rw [if_pos hv] at heq
      exact ⟨t, ht, hv, fileEmitOne_some _ _ _ _ heq⟩
    · rw [if_neg hv] at heq
      cases heq

theorem claim5_witness :
    ((Marker.unknown, "example.com".data)
        ∈ (printAction false false none (fun _ => none) "example".data
            "#h\ncom".data).2)
    ∧ ∃ t ∈ (splitSep "#h\ncom".data).drop 1,
        validateTld t none = true
          ∧ (Marker.unknown, "example.com".data).2
              = (Domain.make "example".data t).full :=
  ⟨by decide,
   (claim5_header_never_candidate false false none (fun _ => none)
      "example".data "#h\ncom".data).2.2.2.1 _ (by decide)⟩

/-- C6: with availability checking off, the print run emits one line per
valid TLD, each carrying the unknown marker, synchronously in source
order. -/
theorem claim6_unchecked_emissions (maxLength : Option Nat) (dns : Dns)
    (sld raw : Str) :
    ((printAction false false maxLength dns sld raw).2
        = (((splitSep raw).drop 1).filter fun t =>
              validateTld t maxLength).map
            fun t => (Marker.unknown, (Domain.make sld t).full))
    ∧ ((printAction false false maxLength dns sld raw).2.length
        = (((splitSep raw).drop 1).filter fun t =>
              validateTld t maxLength).length)
    ∧ ((printAction false false maxLength dns sld raw).2.all
        fun out => decide (out.1 = Marker.unknown)) = true := by
  have h := printAction_eq false false maxLength dns sld raw
  have hu := printEmissions_unchecked false maxLength dns sld
    ((splitSep raw).drop 1)
  refine ⟨?_, ?_, ?_⟩
  · rw [h]
    exact hu
  · rw [h]
    show (printEmissions false false maxLength dns sld
      ((splitSep raw).drop 1)).length = _
    rw [hu, List.length_map]
  · rw [h]
    show (printEmissions false false maxLength dns sld
      ((splitSep raw).drop 1)).all _ = true
    rw [hu, List.all_eq_true]
    intro out hout
    obtain ⟨t, ht, rfl⟩ := List.mem_map.mp hout
    simp

/-- C7: in file mode with `ignoreUnavailable`, a full domain is appended
iff its check classified it Available; the append texts are exactly the
available valid candidates, each append is the text plus a newline, and
(for an sld without CR/LF) the file's newline count equals the number of
candidates classified Available. -/
theorem claim7_file_suppress (maxLength : Option Nat) (dns : Dns)
    (sld raw : Str) (h : ∀ c ∈ sld, isSep c = false) :
    ((fileAction true maxLength dns sld raw).2
        = ((((splitSep raw).drop 1).filter fun t =>
               validateTld t maxLength).filter
             fun t => isDomainAvailable dns (Domain.make sld t)).map
            fun t => (Domain.make sld t).full)
    ∧ ((fileAction true maxLength dns sld raw).2.length
        = ((((splitSep raw).drop 1).filter fun t =>
               validateTld t maxLength).filter
             fun t => isDomainAvailable dns (Domain.make sld t)).length)
    ∧ (fileContents (fileAction true maxLength dns sld raw).2
        = ((fileAction true maxLength dns sld raw).2.map
            fun a => a ++ ['\n']).flatten)
    ∧ ((fileContents (fileAction true maxLength dns sld raw).2).count '\n'
        = (fileAction true maxLength dns sld raw).2.length) := by
  have he := fileAction_eq true maxLength dns sld raw
  have happ := fileAppends_suppress maxLength dns sld ((splitSep raw).drop 1)
  refine ⟨?_, ?_, fileContents_eq _, ?_⟩
  · rw [he]
    exact happ
  · rw [he]
    show (fileAppends true maxLength dns sld
      ((splitSep raw).drop 1)).length = _
    rw [happ, List.length_map]
  · apply count_newline_fileContents
    intro a ha
    rw [he] at ha
    replace ha : a ∈ fileAppends true maxLength dns sld
      ((splitSep raw).drop 1) := ha
    rw [happ] at ha
    obtain ⟨t, ht, rfl⟩ := List.mem_map.mp ha
    have htt : t ∈ (splitSep raw).drop 1 :=
      (List.mem_filter.mp (List.mem_filter.mp ht).1).1
    have hseg : ∀ c ∈ t, isSep c = false :=
      fun c hc =>
        mem_splitSep_no_sep raw t (List.mem_of_mem_drop htt) c hc
    intro hnl
    exact absurd (no_sep_full sld t h hseg '\n' hnl) (by decide)

theorem claim7_witness :
    (∀ c ∈ "example".data, isSep c = false)
    ∧ (fileContents (fileAction true none (fun _ => none) "example".data
          "#h\ncom\nnet".data).2).count '\n'
        = (fileAction true none (fun _ => none) "example".data
            "#h\ncom\nnet".data).2.length :=
  ⟨by decide,
   (claim7_file_suppress none (fun _ => none) "example".data
      "#h\ncom\nnet".data (by decide)).2.2.2⟩

/-- C8: in print mode, `--ignore-unavailable` activates availability
checking even without `--test`: with it set, the run's behaviour does not
depend on the `--test` flag at all, and the emissions are availability
checked — exactly the available valid candidates, marked available. -/
theorem claim8_ignore_implies_test (optTest : Bool)
    (maxLength : Option Nat) (dns : Dns) (sld raw : Str) :
    (printAction optTest true maxLength dns sld raw
        = printAction true true maxLength dns sld raw)
    ∧ ((printAction optTest true maxLength dns sld raw).2
        = ((((splitSep raw).drop 1).filter fun t =>
               validateTld t maxLength).filter
             fun t => isDomainAvailable dns (Domain.make sld t)).map
            fun t => (Marker.available, (Domain.make sld t).full)) := by
  constructor
  · rw [printAction_eq, printAction_eq]
    simp [Bool.or_true]
  · rw [printAction_eq]
    show printEmissions (optTest || true) true maxLength dns sld
      ((splitSep raw).drop 1) = _
    rw [Bool.or_true]
    exact printEmissions_suppress maxLength dns sld ((splitSep raw).drop 1)

/-- C9: the claim says a fatal source failure — file unreadable, network
failure, or a non-success HTTP status such as 404 — aborts the run before
any candidate is processed. The code only aborts on promise rejection
(network/file error): `fetchText` never inspects the HTTP status, so a
404 resolves with the error body, which is then parsed and processed as a
TLD list, emitting candidates. -/
theorem claim9_fetch_404_not_fatal :
    (∀ (status : Nat) (body : Str),
        fetchText (FetchResult.response status body) = Except.ok body)
    ∧ (runPrint false false none (fun _ => none) "example".data
         (FetchResult.response 404 "#404 Not Found\ncom".data)
         = Except.ok (some "#404 Not Found".data,
             [(Marker.unknown, "example.com".data)]))
    ∧ (runPrint false false none (fun _ => none) "example".data
         FetchResult.networkError = Except.error ()) :=
  ⟨fun _ _ => rfl, by rfl, rfl⟩

/-- C10: a whitespace-only TLD string such as `" "` passes validation for
every bound — it is non-empty, its trimmed length is 0, and it has no
hyphen — and the built candidate's tld field is empty, so its full name
is the trimmed lower-cased sld followed by a bare trailing dot; a run
over a list containing such a line emits that dotted name. -/
theorem claim10_whitespace_tld (sld : Str) (maxLength : Option Nat) :
    validateTld " ".data maxLength = true
    ∧ (Domain.make sld " ".data).tld = []
    ∧ (Domain.make sld " ".data).full = toLowerStr (trim sld) ++ ['.']
    ∧ (printAction false false (some 3) (fun _ => none) "example".data
         "#h\n ".data).2
        = [(Marker.unknown, "example.".data)] := by
  have h0 : lenExceeds (trim " ".data).length maxLength = false := by
    cases maxLength with
    | none => rfl
    | some k =>
      show lenExceeds 0 (some k) = false
      simp [lenExceeds]
  refine ⟨?_, rfl, ?_, by decide⟩
  · unfold validateTld
    rw [if_neg (by decide), if_neg (by rw [h0]; exact Bool.false_ne_true),
      if_neg (by decide)]
  · rw [full_make]
    rfl

end DomainScout
